import Mathlib

/-!
Verification of the beacon-kit slashing accounting processor and blob
verification pipeline.

The Go source is embedded shallowly: `uint64` arithmetic is `Nat` with an
explicit `% 2 ^ 64` wherever the machine operation can wrap, fallible
accessor calls return `Except`, and the one Go runtime panic reachable in
the core (integer division by zero in the penalty computation) is a
distinguished outcome of the slashing pass, separate from returned errors.
-/

deriving instance DecidableEq for Except

namespace BeaconKit

/-- The modulus of Go `uint64` arithmetic. -/
def U64 : Nat := 2 ^ 64

/-- Go `uint64` addition (wraps modulo `2 ^ 64`). -/
def u64add (a b : Nat) : Nat := (a + b) % U64

/-- Go `uint64` multiplication (wraps modulo `2 ^ 64`). -/
def u64mul (a b : Nat) : Nat := a * b % U64

/-- The chain parameters consumed by the slashing processor
(`sp.cs` in the source). -/
structure ChainSpec where
  slotsPerEpoch : Nat
  epochsPerSlashingsVector : Nat
  proportionalSlashingMultiplier : Nat
  effectiveBalanceIncrement : Nat
deriving DecidableEq

/-- Modelled from the spec: `epoch = slot / slotsPerEpoch`
(`sp.cs.SlotToEpoch`, a chain-parameter-defined derivation; the function
itself lives outside the core source). -/
def ChainSpec.SlotToEpoch (cs : ChainSpec) (slot : Nat) : Nat :=
  slot / cs.slotsPerEpoch

/-- A validator record as read by the slashing processor: public key,
effective balance (Gwei), slashed flag, withdrawable epoch. -/
structure Validator where
  pubkey : Nat
  effectiveBalance : Nat
  slashed : Bool
  withdrawableEpoch : Nat
deriving DecidableEq

/-- The beacon state as seen through the accessor interface. `Option`
fields model reads that may fail (state unavailable). -/
structure BeaconState where
  slot : Option Nat
  totalActiveBalance : Option Nat
  totalSlashing : Option Nat
  validators : List Validator
  balances : List Nat
  slashings : List Nat
deriving DecidableEq

/-- Errors returned by the state accessor operations. -/
inductive StErr where
  | slotUnavailable
  | totalActiveBalanceUnavailable
  | totalSlashingUnavailable
  | validatorNotFound (pubkey : Nat)
  | balanceIndexOutOfRange (idx : Nat)
  | slashingIndexOutOfRange (idx : Nat)
deriving DecidableEq

/-- Modelled from the spec: accessor `getSlot() -> Slot`; fails when the
slot is unavailable. -/
def GetSlot (st : BeaconState) : Except StErr Nat :=
  match st.slot with
  | some s => .ok s
  | none => .error .slotUnavailable

/-- Modelled from the spec: accessor `getTotalActiveBalance(epoch) -> Gwei`;
the `slotsPerEpoch` argument mirrors the call
`st.GetTotalActiveBalances(sp.cs.SlotsPerEpoch())` in the source and does
not affect the value held by the state. -/
def GetTotalActiveBalances (st : BeaconState) (slotsPerEpoch : Nat) :
    Except StErr Nat :=
  match slotsPerEpoch, st.totalActiveBalance with
  | _, some b => .ok b
  | _, none => .error .totalActiveBalanceUnavailable

/-- Modelled from the spec: accessor `getTotalSlashing() -> Gwei`. -/
def GetTotalSlashing (st : BeaconState) : Except StErr Nat :=
  match st.totalSlashing with
  | some b => .ok b
  | none => .error .totalSlashingUnavailable

/-- Modelled from the spec: accessor `getValidators() -> sequence<Validator>`. -/
def GetValidators (st : BeaconState) : Except StErr (List Validator) :=
  .ok st.validators

/-- Modelled from the spec: accessor
`validatorIndexByPubkey(pubkey) -> index | NotFound`. -/
def ValidatorIndexByPubkey (st : BeaconState) (pk : Nat) : Except StErr Nat :=
  match st.validators.findIdx? (fun v => v.pubkey == pk) with
  | some i => .ok i
  | none => .error (.validatorNotFound pk)

/-- Modelled from the spec: accessor `decreaseBalance(validatorIndex, amount)`,
which saturates at zero rather than underflowing (`Nat` subtraction) and
fails when the index is out of range. -/
def DecreaseBalance (st : BeaconState) (idx amount : Nat) :
    Except StErr BeaconState :=
  if h : idx < st.balances.length then
    .ok { st with balances := st.balances.set idx (st.balances.get ⟨idx, h⟩ - amount) }
  else
    .error (.balanceIndexOutOfRange idx)

/-- Modelled from the spec: accessor `updateSlashingAtIndex(index, value)`;
fails when the index is out of range. -/
def UpdateSlashingAtIndex (st : BeaconState) (idx value : Nat) :
    Except StErr BeaconState :=
  if idx < st.slashings.length then
    .ok { st with slashings := st.slashings.set idx value }
  else
    .error (.slashingIndexOutOfRange idx)

/-- Outcome of the slashing pass. `.err` carries the state as far as the
pass progressed; `.divByZero` is the Go runtime panic raised by an integer
division with a zero divisor (distinct from a returned error). -/
inductive SlashOutcome where
  | ok (st : BeaconState)
  | err (e : StErr) (st : BeaconState)
  | divByZero (st : BeaconState)
deriving DecidableEq

/-- The state carried by a `SlashOutcome`. -/
def SlashOutcome.state : SlashOutcome → BeaconState
  | .ok st => st
  | .err _ st => st
  | .divByZero st => st

/-- Embeds `processSlashingsReset` (part_001 lines 38-49): read the slot,
compute `(epoch + 1) % EpochsPerSlashingsVector`, zero that slashings
entry. -/
def processSlashingsReset (cs : ChainSpec) (st : BeaconState) :
    Except StErr BeaconState :=
  match GetSlot st with
  | .error e => .error e
  | .ok slot =>
    UpdateSlashingAtIndex st (u64add (cs.SlotToEpoch slot) 1 % cs.epochsPerSlashingsVector) 0

/-- Embeds the `adjustedTotalSlashingBalance` computation of
`processSlashings` (part_001 lines 92-96): a Go `uint64` multiplication
followed by `min`. -/
def adjustedTotalSlashingBalance (cs : ChainSpec) (totalSlashings totalBalance : Nat) : Nat :=
  min (u64mul totalSlashings cs.proportionalSlashingMultiplier) totalBalance

/-- Embeds `slashableEpoch` (part_001 line 112):
`(epoch + EpochsPerSlashingsVector) / 2` in `uint64` arithmetic. -/
def slashableEpoch (cs : ChainSpec) (slot : Nat) : Nat :=
  u64add (cs.SlotToEpoch slot) cs.epochsPerSlashingsVector / 2

/-- Embeds the penalty guard of `processSlashings` (part_001 line 114):
`val.Slashed && (slashableEpoch == uint64(val.WithdrawableEpoch))`. -/
def slashable (cs : ChainSpec) (slot : Nat) (v : Validator) : Bool :=
  v.slashed && (slashableEpoch cs slot == v.withdrawableEpoch)

/-- Embeds `processSlash` (part_001 lines 131-149). The two divisions are
Go `uint64` divisions: a zero divisor (zero `EffectiveBalanceIncrement` or
zero `totalBalance`) is a runtime panic, modelled by `.divByZero`. The
multiplications wrap modulo `2 ^ 64`. -/
def processSlash (cs : ChainSpec) (st : BeaconState) (val : Validator)
    (adjusted totalBalance : Nat) : SlashOutcome :=
  if cs.effectiveBalanceIncrement = 0 then .divByZero st else
  if totalBalance = 0 then .divByZero st else
  let balDivIncrement := val.effectiveBalance / cs.effectiveBalanceIncrement
  let penaltyNumerator := u64mul balDivIncrement adjusted
  let penalty := u64mul (penaltyNumerator / totalBalance) cs.effectiveBalanceIncrement
  match ValidatorIndexByPubkey st val.pubkey with
  | .error e => .err e st
  | .ok idx =>
    match DecreaseBalance st idx penalty with
    | .error e => .err e st
    | .ok stNew => .ok stNew

/-- The validator loop of `processSlashings` (part_001 lines 109-124):
scan every validator, and for each one satisfying the guard run
`processSlash`, aborting on the first error or panic. -/
def slashValidators (cs : ChainSpec) (slot adjusted totalBalance : Nat) :
    List Validator → BeaconState → SlashOutcome
  | [], st => .ok st
  | v :: vs, st =>
    if slashable cs slot v then
      match processSlash cs st v adjusted totalBalance with
      | .ok stNew => slashValidators cs slot adjusted totalBalance vs stNew
      | r => r
    else
      slashValidators cs slot adjusted totalBalance vs st

/-- Embeds `processSlashings` (part_001 lines 80-126): read total active
balance, total slashings, validators and slot, compute the adjusted total
slashing balance once for the batch, then run the validator loop. -/
def processSlashings (cs : ChainSpec) (st : BeaconState) : SlashOutcome :=
  match GetTotalActiveBalances st cs.slotsPerEpoch with
  | .error e => .err e st
  | .ok totalBalance =>
    match GetTotalSlashing st with
    | .error e => .err e st
    | .ok totalSlashings =>
      let adjusted := adjustedTotalSlashingBalance cs totalSlashings totalBalance
      match GetValidators st with
      | .error e => .err e st
      | .ok vals =>
        match GetSlot st with
        | .error e => .err e st
        | .ok slot => slashValidators cs slot adjusted totalBalance vals st

/-- The penalty formula of `processSlash` (part_001 lines 138-141) as a
standalone function of the inputs:
`(effectiveBalance / increment) * adjusted / totalBalance * increment`,
each multiplication wrapping modulo `2 ^ 64`, the division by
`totalBalance` before the final multiplication by the increment. -/
def slashPenalty (cs : ChainSpec) (effectiveBalance adjusted totalBalance : Nat) : Nat :=
  u64mul (u64mul (effectiveBalance / cs.effectiveBalanceIncrement) adjusted / totalBalance)
    cs.effectiveBalanceIncrement

/-- Reference loop that penalizes every validator of its argument list
unconditionally; used to state which validators `processSlashings`
penalizes. -/
def slashAll (cs : ChainSpec) (adjusted totalBalance : Nat) :
    List Validator → BeaconState → SlashOutcome
  | [], st => .ok st
  | v :: vs, st =>
    match processSlash cs st v adjusted totalBalance with
    | .ok stNew => slashAll cs adjusted totalBalance vs stNew
    | r => r

/-- An opaque blob sidecar (data plus proof metadata); the verification
primitives consume it as a unit. A `none` entry in a batch models a Go
`nil` sidecar pointer. -/
structure BlobSidecar where
  blob : Nat
deriving DecidableEq

/-- Per-sidecar failures of the inclusion-proof goroutine:
`ErrAttemptedToVerifyNilSidecar` for a nil sidecar, or a
`VerifyKZGInclusionProof` mismatch. -/
inductive SidecarErr where
  | nilSidecar
  | inclusionProofFail
deriving DecidableEq

/-- Errors `ProcessBlobs` can return: the `errors.Join` of the per-sidecar
inclusion failures, an aggregate KZG proof failure, or a failure of the
availability store write. -/
inductive BlobErr where
  | inclusion (errs : List SidecarErr)
  | aggregateProofFail
  | persistFail
deriving DecidableEq

/-- The availability store, keyed by slot. `failPersist` injects a write
failure of the external store. -/
structure AvailabilityStore where
  entries : List (Nat × List (Option BlobSidecar))
  failPersist : Bool
deriving DecidableEq

/-- Modelled from the spec: availability store capability
`persist(slot, sidecars) -> success | error`; on success it records the
full batch under the slot. -/
def Persist (slot : Nat) (avs : AvailabilityStore)
    (sidecars : List (Option BlobSidecar)) : Except BlobErr AvailabilityStore :=
  if avs.failPersist then .error .persistFail
  else .ok { avs with entries := (slot, sidecars) :: avs.entries }

/-- The per-sidecar body of the inclusion-proof goroutine (part_002 lines
216-224): a nil sidecar yields `ErrAttemptedToVerifyNilSidecar`, otherwise
the pluggable `VerifyKZGInclusionProof` primitive (the `verifyInclusion`
parameter) decides. `none` means the sidecar passed. -/
def sidecarVerdict (verifyInclusion : BlobSidecar → Bool) :
    Option BlobSidecar → Option SidecarErr
  | none => some .nilSidecar
  | some sc => if verifyInclusion sc then none else some .inclusionProofFail

/-- The `errors.Join(iter.Map ...)` of the inclusion goroutine (part_002
lines 214-225): every sidecar is checked and all non-nil errors are kept,
in batch order. The joined error is non-nil iff this list is non-empty. -/
def inclusionErrors (verifyInclusion : BlobSidecar → Bool)
    (sidecars : List (Option BlobSidecar)) : List SidecarErr :=
  sidecars.filterMap (sidecarVerdict verifyInclusion)

/-- Embeds `ProcessBlobs` (part_002 lines 205-243). The two `errgroup`
goroutines (inclusion proofs, aggregate KZG proof) both run to completion;
`g.Wait()` returns the error of whichever failing goroutine was recorded
first. `inclusionFirst` abstracts that scheduling choice: it selects which
single error `g.Wait()` yields when both goroutines fail. Persist runs
only when both succeed. `verifyAggregate` is the pluggable
`VerifyKZGProofs` primitive. -/
def ProcessBlobs (verifyInclusion : BlobSidecar → Bool)
    (verifyAggregate : List (Option BlobSidecar) → Bool)
    (inclusionFirst : Bool) (slot : Nat) (avs : AvailabilityStore)
    (sidecars : List (Option BlobSidecar)) : Except BlobErr AvailabilityStore :=
  let inclErr : Option BlobErr :=
    match inclusionErrors verifyInclusion sidecars with
    | [] => none
    | es => some (.inclusion es)
  let aggErr : Option BlobErr :=
    if verifyAggregate sidecars then none else some .aggregateProofFail
  match inclErr, aggErr with
  | none, none => Persist slot avs sidecars
  | some e, none => .error e
  | none, some e => .error e
  | some e1, some e2 => .error (if inclusionFirst then e1 else e2)

/-! ## Helper lemmas -/

/-- The state with the balance at index `i` replaced by `b` (the shape of
the single mutation `DecreaseBalance` performs). -/
def BeaconState.setBalance (st : BeaconState) (i b : Nat) : BeaconState :=
  { st with balances := st.balances.set i b }

/-- The accessor lookup by public key reads only the validator list. -/
theorem ValidatorIndexByPubkey_congr {st1 st2 : BeaconState}
    (h : st1.validators = st2.validators) (pk : Nat) :
    ValidatorIndexByPubkey st1 pk = ValidatorIndexByPubkey st2 pk := by
  simp [ValidatorIndexByPubkey, h]

/-- Complete case analysis of `processSlash`: an error returns the input
state untouched, a zero divisor panics on the input state untouched, and
success mutates exactly one balance, at the index resolved from the
validator's public key. -/
theorem processSlash_cases (cs : ChainSpec) (st : BeaconState) (v : Validator)
    (a t : Nat) :
    (∃ e, processSlash cs st v a t = .err e st)
    ∨ processSlash cs st v a t = .divByZero st
    ∨ ∃ idx b, ValidatorIndexByPubkey st v.pubkey = .ok idx ∧ idx < st.balances.length ∧
        processSlash cs st v a t = .ok (st.setBalance idx b) := by
  by_cases hinc : cs.effectiveBalanceIncrement = 0
  · exact Or.inr (Or.inl (by simp [processSlash, hinc]))
  by_cases ht : t = 0
  · exact Or.inr (Or.inl (by simp [processSlash, hinc, ht]))
  cases hpk : ValidatorIndexByPubkey st v.pubkey with
  | error e => exact Or.inl ⟨e, by simp [processSlash, hinc, ht, hpk]⟩
  | ok idx =>
    by_cases hlt : idx < st.balances.length
    · refine Or.inr (Or.inr ⟨idx,
        st.balances.get ⟨idx, hlt⟩ - slashPenalty cs v.effectiveBalance a t, rfl, hlt, ?_⟩)
      simp [processSlash, hinc, ht, hpk, DecreaseBalance, hlt, slashPenalty,
        BeaconState.setBalance]
    · refine Or.inl ⟨.balanceIndexOutOfRange idx, ?_⟩
      simp [processSlash, hinc, ht, hpk, DecreaseBalance, hlt]

/-- A failing `processSlash` reports the state it was given. -/
theorem processSlash_err_state {cs : ChainSpec} {st : BeaconState} {v : Validator}
    {a t : Nat} {e : StErr} {s2 : BeaconState}
    (h : processSlash cs st v a t = .err e s2) : s2 = st := by
  rcases processSlash_cases cs st v a t with ⟨e2, h2⟩ | h2 | ⟨idx, b, _, _, h2⟩ <;>
      rw [h2] at h
  · injection h with h1 h2
    exact h2.symm
  · exact SlashOutcome.noConfusion h
  · exact SlashOutcome.noConfusion h

/-! ## C1: the slashing penalty formula -/

/-- C1: when a validator is penalized (nonzero divisors, resolvable index),
`processSlash` decreases its balance, via the accessor's balance-decrease
operation, by exactly
`(effectiveBalance / increment) * adjustedTotalSlashingBalance / totalBalance * increment`,
with floor divisions, the division by `totalBalance` before the final
multiplication by the increment, and each `uint64` multiplication wrapping
modulo `2 ^ 64`; when the products fit in a `uint64`, the penalty equals
that expression over unbounded integers. -/
theorem processSlash_penalty (cs : ChainSpec) (st : BeaconState) (val : Validator)
    (adjusted totalBalance i : Nat)
    (hinc : cs.effectiveBalanceIncrement ≠ 0) (htb : totalBalance ≠ 0)
    (hidx : ValidatorIndexByPubkey st val.pubkey = .ok i)
    (hlt : i < st.balances.length) :
    processSlash cs st val adjusted totalBalance
      = .ok (st.setBalance i
          (st.balances.get ⟨i, hlt⟩
            - slashPenalty cs val.effectiveBalance adjusted totalBalance))
    ∧ (val.effectiveBalance / cs.effectiveBalanceIncrement * adjusted < U64 →
       val.effectiveBalance / cs.effectiveBalanceIncrement * adjusted / totalBalance
           * cs.effectiveBalanceIncrement < U64 →
       slashPenalty cs val.effectiveBalance adjusted totalBalance
         = val.effectiveBalance / cs.effectiveBalanceIncrement * adjusted / totalBalance
             * cs.effectiveBalanceIncrement) := by
  constructor
  · simp [processSlash, hinc, htb, hidx, DecreaseBalance, hlt, slashPenalty,
      BeaconState.setBalance]
  · intro h1 h2
    simp [slashPenalty, u64mul, Nat.mod_eq_of_lt h1, Nat.mod_eq_of_lt h2]

/-- C1 witness: at the spec's own numbers (32 Gwei effective balance,
1 Gwei increment, 3 Gwei adjusted slashing balance, 32000 Gwei total),
the penalty is `(32 * 3000000000 / 32000000000000) * 1000000000 = 0`
(division before the final multiply) and the balance is decreased by it. -/
theorem processSlash_penalty_witness :
    processSlash ⟨1, 8, 1, 1000000000⟩
        ⟨some 0, none, none, [⟨7, 32000000000, true, 0⟩], [32000000000], []⟩
        ⟨7, 32000000000, true, 0⟩ 3000000000 32000000000000
      = .ok ⟨some 0, none, none, [⟨7, 32000000000, true, 0⟩], [32000000000], []⟩
    ∧ slashPenalty ⟨1, 8, 1, 1000000000⟩ 32000000000 3000000000 32000000000000
      = 32000000000 / 1000000000 * 3000000000 / 32000000000000 * 1000000000 := by
  have h := processSlash_penalty ⟨1, 8, 1, 1000000000⟩
    ⟨some 0, none, none, [⟨7, 32000000000, true, 0⟩], [32000000000], []⟩
    ⟨7, 32000000000, true, 0⟩ 3000000000 32000000000000 0
    (by decide) (by decide) rfl (by decide)
  exact ⟨h.1, h.2 (by decide) (by decide)⟩

/-! ## C3: the adjusted total slashing balance -/

/-- C3 counterexample: with multiplier 2 and `totalSlashings = 2 ^ 63`, the
`uint64` product wraps to 0 before the `min` clamp, so the code's result
(0) is not the mathematical `min` over unbounded integers (5): the
multiplication is not performed in a width wide enough to avoid
overflow. -/
theorem adjustedTotalSlashingBalance_overflow_cex :
    adjustedTotalSlashingBalance ⟨1, 1, 2, 1⟩ (2 ^ 63) 5 ≠ min (2 ^ 63 * 2) 5 := by
  decide

/-- C3 amended: `adjustedTotalSlashingBalance` equals
`min(totalSlashings * multiplier mod 2 ^ 64, totalActiveBalance)`
(multiply-then-clamp in `uint64`), and agrees with the unbounded-integer
`min` exactly when the product does not overflow. -/
theorem adjustedTotalSlashingBalance_amended (cs : ChainSpec) (ts tb : Nat) :
    adjustedTotalSlashingBalance cs ts tb
      = min (ts * cs.proportionalSlashingMultiplier % U64) tb
    ∧ (ts * cs.proportionalSlashingMultiplier < U64 →
        adjustedTotalSlashingBalance cs ts tb
          = min (ts * cs.proportionalSlashingMultiplier) tb) := by
  refine ⟨rfl, fun h => ?_⟩
  simp [adjustedTotalSlashingBalance, u64mul, Nat.mod_eq_of_lt h]

/-- C3 amended witness: with a non-overflowing product `4 * 3`, the three
readings of the clamp agree. -/
theorem adjustedTotalSlashingBalance_amended_witness :
    adjustedTotalSlashingBalance ⟨1, 1, 3, 1⟩ 4 100 = min (4 * 3 % U64) 100
    ∧ adjustedTotalSlashingBalance ⟨1, 1, 3, 1⟩ 4 100 = min (4 * 3) 100 :=
  ⟨(adjustedTotalSlashingBalance_amended ⟨1, 1, 3, 1⟩ 4 100).1,
   (adjustedTotalSlashingBalance_amended ⟨1, 1, 3, 1⟩ 4 100).2 (by decide)⟩

/-! ## C4: the slashings-window reset -/

/-- C4: a successful `processSlashingsReset` zeroes the slashings-vector
entry at `(epoch + 1) % EpochsPerSlashingsVector` and leaves every other
entry unchanged; it fails only when the slot read or the slashing-index
update fails, returning that accessor's error. -/
theorem processSlashingsReset_window (cs : ChainSpec) (st : BeaconState) :
    (∀ st2 slot, st.slot = some slot → processSlashingsReset cs st = .ok st2 →
      st2.slashings[u64add (cs.SlotToEpoch slot) 1 % cs.epochsPerSlashingsVector]? = some 0
      ∧ ∀ j, j ≠ u64add (cs.SlotToEpoch slot) 1 % cs.epochsPerSlashingsVector →
          st2.slashings[j]? = st.slashings[j]?)
    ∧ ∀ e, processSlashingsReset cs st = .error e →
        (st.slot = none ∧ e = .slotUnavailable)
        ∨ ∃ slot, st.slot = some slot ∧
            UpdateSlashingAtIndex st
              (u64add (cs.SlotToEpoch slot) 1 % cs.epochsPerSlashingsVector) 0 = .error e := by
  constructor
  · intro st2 slot hs hok
    have hps : processSlashingsReset cs st
        = UpdateSlashingAtIndex st
            (u64add (cs.SlotToEpoch slot) 1 % cs.epochsPerSlashingsVector) 0 := by
      simp [processSlashingsReset, GetSlot, hs]
    rw [hps] at hok
    unfold UpdateSlashingAtIndex at hok
    split at hok
    case isTrue h =>
      injection hok with hok
      subst hok
      constructor
      · exact List.getElem?_set_eq_of_lt 0 h
      · intro j hj
        exact List.getElem?_set_ne (Ne.symm hj)
    case isFalse h =>
      exact Except.noConfusion hok
  · intro e he
    cases hs : st.slot with
    | none =>
      refine Or.inl ⟨rfl, ?_⟩
      simp [processSlashingsReset, GetSlot, hs] at he
      exact he.symm
    | some slot =>
      refine Or.inr ⟨slot, rfl, ?_⟩
      simpa [processSlashingsReset, GetSlot, hs] using he

/-- C4 witness: epoch 2, vector length 4: entry 3 becomes 0, entry 1 is
untouched. -/
theorem processSlashingsReset_window_witness :
    processSlashingsReset ⟨1, 4, 1, 1⟩ ⟨some 2, none, none, [], [], [5, 6, 7, 8]⟩
      = .ok ⟨some 2, none, none, [], [], [5, 6, 7, 0]⟩
    ∧ ([5, 6, 7, 0] : List Nat)[3]? = some 0
    ∧ ([5, 6, 7, 0] : List Nat)[1]? = ([5, 6, 7, 8] : List Nat)[1]? := by
  have h := (processSlashingsReset_window ⟨1, 4, 1, 1⟩
      ⟨some 2, none, none, [], [], [5, 6, 7, 8]⟩).1
    ⟨some 2, none, none, [], [], [5, 6, 7, 0]⟩ 2 rfl rfl
  exact ⟨rfl, h.1, h.2 1 (by decide)⟩

/-- When all four pre-loop reads succeed, `processSlashings` is the
validator loop run with the batch-level adjusted slashing balance. -/
theorem processSlashings_reduce (cs : ChainSpec) (st : BeaconState)
    (slot tb ts : Nat) (hs : st.slot = some slot)
    (htb : st.totalActiveBalance = some tb) (hts : st.totalSlashing = some ts) :
    processSlashings cs st
      = slashValidators cs slot (adjustedTotalSlashingBalance cs ts tb) tb st.validators st := by
  simp [processSlashings, GetTotalActiveBalances, GetTotalSlashing, GetValidators, GetSlot,
    hs, htb, hts]

/-- The guarded validator loop penalizes exactly the validators passing
the `slashable` guard, in order. -/
theorem slashValidators_filter (cs : ChainSpec) (slot a t : Nat)
    (vs : List Validator) :
    ∀ st, slashValidators cs slot a t vs st
      = slashAll cs a t (vs.filter (slashable cs slot)) st := by
  induction vs with
  | nil => intro st; rfl
  | cons v vs ih =>
    intro st
    by_cases hsl : slashable cs slot v
    · rw [show (v :: vs).filter (slashable cs slot)
          = v :: vs.filter (slashable cs slot) from by simp [List.filter_cons, hsl]]
      show (if slashable cs slot v then
          match processSlash cs st v a t with
          | .ok stNew => slashValidators cs slot a t vs stNew
          | r => r
        else slashValidators cs slot a t vs st)
        = match processSlash cs st v a t with
          | .ok stNew => slashAll cs a t (vs.filter (slashable cs slot)) stNew
          | r => r
      rw [if_pos hsl]
      cases processSlash cs st v a t with
      | ok stNew => exact ih stNew
      | err e s2 => rfl
      | divByZero s2 => rfl
    · rw [show (v :: vs).filter (slashable cs slot)
          = vs.filter (slashable cs slot) from by simp [List.filter_cons, hsl]]
      show (if slashable cs slot v then
          match processSlash cs st v a t with
          | .ok stNew => slashValidators cs slot a t vs stNew
          | r => r
        else slashValidators cs slot a t vs st)
        = slashAll cs a t (vs.filter (slashable cs slot)) st
      rw [if_neg hsl]
      exact ih st

/-! ## C2: the penalty guard -/

/-- C2: on a state whose reads succeed, `processSlashings` scans the full
validator set and penalizes exactly the validators with `slashed == true`
and `withdrawableEpoch` exactly equal to
`(currentEpoch + EpochsPerSlashingsVector) / 2` (integer floor division,
exact equality — the pass equals running the unconditional penalty loop
on precisely the filtered validators). -/
theorem processSlashings_penalizes_iff (cs : ChainSpec) (st : BeaconState)
    (slot tb ts : Nat) (hs : st.slot = some slot)
    (htb : st.totalActiveBalance = some tb) (hts : st.totalSlashing = some ts) :
    processSlashings cs st
      = slashAll cs (adjustedTotalSlashingBalance cs ts tb) tb
          (st.validators.filter (slashable cs slot)) st
    ∧ ∀ v : Validator, slashable cs slot v = true
        ↔ v.slashed = true
          ∧ v.withdrawableEpoch = u64add (cs.SlotToEpoch slot) cs.epochsPerSlashingsVector / 2 := by
  constructor
  · rw [processSlashings_reduce cs st slot tb ts hs htb hts]
    exact slashValidators_filter cs slot (adjustedTotalSlashingBalance cs ts tb) tb
      st.validators st
  · intro v
    rw [show (slashable cs slot v = true)
        ↔ (v.slashed = true ∧ slashableEpoch cs slot = v.withdrawableEpoch)
      from by simp [slashable, Bool.and_eq_true, beq_iff_eq]]
    unfold slashableEpoch
    constructor
    · rintro ⟨h1, h2⟩
      exact ⟨h1, h2.symm⟩
    · rintro ⟨h1, h2⟩
      exact ⟨h1, h2.symm⟩

/-- C2 witness: slot 4 of a 2-slot-epoch chain, window 4: the slashable
epoch is 3; of the three validators only the slashed one with
withdrawable epoch exactly 3 is penalized. -/
theorem processSlashings_penalizes_iff_witness :
    processSlashings ⟨2, 4, 2, 5⟩
        ⟨some 4, some 40, some 7,
          [⟨1, 10, true, 3⟩, ⟨2, 10, true, 2⟩, ⟨3, 10, false, 3⟩],
          [100, 100, 100], [0, 0, 0, 7]⟩
      = slashAll ⟨2, 4, 2, 5⟩ (adjustedTotalSlashingBalance ⟨2, 4, 2, 5⟩ 7 40) 40
          ((⟨some 4, some 40, some 7,
              [⟨1, 10, true, 3⟩, ⟨2, 10, true, 2⟩, ⟨3, 10, false, 3⟩],
              [100, 100, 100], [0, 0, 0, 7]⟩ : BeaconState).validators.filter
            (slashable ⟨2, 4, 2, 5⟩ 4))
          ⟨some 4, some 40, some 7,
            [⟨1, 10, true, 3⟩, ⟨2, 10, true, 2⟩, ⟨3, 10, false, 3⟩],
            [100, 100, 100], [0, 0, 0, 7]⟩
    ∧ (slashable ⟨2, 4, 2, 5⟩ 4 ⟨1, 10, true, 3⟩ = true
        ↔ (⟨1, 10, true, 3⟩ : Validator).slashed = true
          ∧ (⟨1, 10, true, 3⟩ : Validator).withdrawableEpoch
              = u64add (ChainSpec.SlotToEpoch ⟨2, 4, 2, 5⟩ 4)
                  (ChainSpec.epochsPerSlashingsVector ⟨2, 4, 2, 5⟩) / 2) := by
  have h := processSlashings_penalizes_iff ⟨2, 4, 2, 5⟩
    ⟨some 4, some 40, some 7,
      [⟨1, 10, true, 3⟩, ⟨2, 10, true, 2⟩, ⟨3, 10, false, 3⟩],
      [100, 100, 100], [0, 0, 0, 7]⟩ 4 40 7 rfl rfl rfl
  exact ⟨h.1, h.2 ⟨1, 10, true, 3⟩⟩

/-! ## C9: mid-pass failure leaves penalties applied -/

/-- A failing run of the validator loop splits the list at the failing
validator: the prefix was fully processed, the returned state is exactly
the state after that prefix, and the failing step left it untouched. -/
theorem slashValidators_err (cs : ChainSpec) (slot a t : Nat) (e : StErr)
    (stE : BeaconState) (vs : List Validator) :
    ∀ st, slashValidators cs slot a t vs st = .err e stE →
      ∃ pre v suf, vs = pre ++ v :: suf ∧ slashable cs slot v = true ∧
        slashValidators cs slot a t pre st = .ok stE ∧
        processSlash cs stE v a t = .err e stE := by
  induction vs with
  | nil =>
    intro st h
    exact absurd h (by simp [slashValidators])
  | cons v vs ih =>
    intro st h
    have hstep : slashValidators cs slot a t (v :: vs) st
        = if slashable cs slot v then
            match processSlash cs st v a t with
            | .ok stNew => slashValidators cs slot a t vs stNew
            | r => r
          else slashValidators cs slot a t vs st := rfl
    by_cases hsl : slashable cs slot v
    · rw [hstep, if_pos hsl] at h
      cases hps : processSlash cs st v a t with
      | ok stNew =>
        rw [hps] at h
        obtain ⟨pre, v2, suf, hvs, hsl2, hpre, herr⟩ := ih stNew h
        refine ⟨v :: pre, v2, suf, by rw [hvs, List.cons_append], hsl2, ?_, herr⟩
        have hstep2 : slashValidators cs slot a t (v :: pre) st
            = if slashable cs slot v then
                match processSlash cs st v a t with
                | .ok stNew => slashValidators cs slot a t pre stNew
                | r => r
              else slashValidators cs slot a t pre st := rfl
        rw [hstep2, if_pos hsl, hps]
        exact hpre
      | err e2 s2 =>
        rw [hps] at h
        injection h with he hst
        subst he
        have hs2 : s2 = st := processSlash_err_state hps
        subst hs2
        subst hst
        exact ⟨[], v, vs, rfl, hsl, rfl, hps⟩
      | divByZero s2 =>
        rw [hps] at h
        exact SlashOutcome.noConfusion h
    · rw [hstep, if_neg hsl] at h
      obtain ⟨pre, v2, suf, hvs, hsl2, hpre, herr⟩ := ih st h
      refine ⟨v :: pre, v2, suf, by rw [hvs, List.cons_append], hsl2, ?_, herr⟩
      have hstep2 : slashValidators cs slot a t (v :: pre) st
          = if slashable cs slot v then
              match processSlash cs st v a t with
              | .ok stNew => slashValidators cs slot a t pre stNew
              | r => r
            else slashValidators cs slot a t pre st := rfl
      rw [hstep2, if_neg hsl]
      exact hpre

/-- C9: if a state-accessor operation fails partway through the pass,
`processSlashings` aborts at that validator and returns the accessor's
error together with the state exactly as far as the pass progressed: the
validators before the failing one keep their penalties (the prefix ran to
completion producing the returned state) and nothing is rolled back. -/
theorem processSlashings_error_progress (cs : ChainSpec) (st : BeaconState)
    (slot tb ts : Nat) (e : StErr) (stE : BeaconState)
    (hs : st.slot = some slot) (htb : st.totalActiveBalance = some tb)
    (hts : st.totalSlashing = some ts)
    (h : processSlashings cs st = .err e stE) :
    ∃ pre v suf, st.validators = pre ++ v :: suf ∧ slashable cs slot v = true ∧
      slashValidators cs slot (adjustedTotalSlashingBalance cs ts tb) tb pre st = .ok stE ∧
      processSlash cs stE v (adjustedTotalSlashingBalance cs ts tb) tb = .err e stE := by
  rw [processSlashings_reduce cs st slot tb ts hs htb hts] at h
  exact slashValidators_err cs slot (adjustedTotalSlashingBalance cs ts tb) tb e stE
    st.validators st h

/-- C9 witness: two slashable validators but only one balance slot; the
first validator's penalty (6 Gwei) is applied, then the second validator's
balance write fails out of range, and the pass returns that error with the
first penalty still in place. -/
theorem processSlashings_error_progress_witness :
    ∃ pre v suf,
      (⟨some 0, some 50, some 30, [⟨1, 10, true, 1⟩, ⟨2, 10, true, 1⟩], [100], []⟩
          : BeaconState).validators = pre ++ v :: suf
      ∧ slashable ⟨1, 2, 1, 1⟩ 0 v = true
      ∧ slashValidators ⟨1, 2, 1, 1⟩ 0 (adjustedTotalSlashingBalance ⟨1, 2, 1, 1⟩ 30 50) 50 pre
          ⟨some 0, some 50, some 30, [⟨1, 10, true, 1⟩, ⟨2, 10, true, 1⟩], [100], []⟩
        = .ok ⟨some 0, some 50, some 30, [⟨1, 10, true, 1⟩, ⟨2, 10, true, 1⟩], [94], []⟩
      ∧ processSlash ⟨1, 2, 1, 1⟩
          ⟨some 0, some 50, some 30, [⟨1, 10, true, 1⟩, ⟨2, 10, true, 1⟩], [94], []⟩
          v (adjustedTotalSlashingBalance ⟨1, 2, 1, 1⟩ 30 50) 50
        = .err (.balanceIndexOutOfRange 1)
            ⟨some 0, some 50, some 30, [⟨1, 10, true, 1⟩, ⟨2, 10, true, 1⟩], [94], []⟩ :=
  processSlashings_error_progress ⟨1, 2, 1, 1⟩
    ⟨some 0, some 50, some 30, [⟨1, 10, true, 1⟩, ⟨2, 10, true, 1⟩], [100], []⟩
    0 50 30 (.balanceIndexOutOfRange 1)
    ⟨some 0, some 50, some 30, [⟨1, 10, true, 1⟩, ⟨2, 10, true, 1⟩], [94], []⟩
    rfl rfl rfl rfl

/-! ## C10: unguarded division by zero -/

/-- With a zero total balance, any validator passing the guard makes the
loop hit the unguarded division and panic, leaving the state untouched. -/
theorem slashValidators_zero_total (cs : ChainSpec) (slot a : Nat)
    (vs : List Validator) :
    ∀ st, (∃ v ∈ vs, slashable cs slot v = true) →
      slashValidators cs slot a 0 vs st = .divByZero st := by
  induction vs with
  | nil =>
    intro st h
    simp at h
  | cons v vs ih =>
    intro st h
    by_cases hsl : slashable cs slot v
    · have hps : processSlash cs st v a 0 = .divByZero st := by
        simp [processSlash]
      show (if slashable cs slot v then
          match processSlash cs st v a 0 with
          | .ok stNew => slashValidators cs slot a 0 vs stNew
          | r => r
        else slashValidators cs slot a 0 vs st) = .divByZero st
      rw [if_pos hsl, hps]
    · obtain ⟨v2, hv2, hsl2⟩ := h
      rcases List.mem_cons.mp hv2 with rfl | hv2
      · exact absurd hsl2 hsl
      · show (if slashable cs slot v then
            match processSlash cs st v a 0 with
            | .ok stNew => slashValidators cs slot a 0 vs stNew
            | r => r
          else slashValidators cs slot a 0 vs st) = .divByZero st
        rw [if_neg hsl]
        exact ih st ⟨v2, hv2, hsl2⟩

/-- C10: the penalty division has no zero guard: on any state whose reads
succeed, whose total active balance is 0, and which contains at least one
validator passing the penalty guard, `processSlashings` hits an integer
division by zero (a Go runtime panic, modelled as the `divByZero`
outcome), not an error return. -/
theorem processSlashings_div_by_zero (cs : ChainSpec) (st : BeaconState)
    (slot ts : Nat) (hs : st.slot = some slot)
    (h0 : st.totalActiveBalance = some 0) (hts : st.totalSlashing = some ts)
    (hv : ∃ v ∈ st.validators, slashable cs slot v = true) :
    processSlashings cs st = .divByZero st := by
  rw [processSlashings_reduce cs st slot 0 ts hs h0 hts]
  exact slashValidators_zero_total cs slot (adjustedTotalSlashingBalance cs ts 0)
    st.validators st hv

/-- C10 witness: one slashed validator in the penalty window and a zero
total active balance: the pass panics on the division with the state
untouched. -/
theorem processSlashings_div_by_zero_witness :
    processSlashings ⟨1, 2, 1, 1⟩
        ⟨some 0, some 0, some 30, [⟨1, 10, true, 1⟩], [100], []⟩
      = .divByZero ⟨some 0, some 0, some 30, [⟨1, 10, true, 1⟩], [100], []⟩ :=
  processSlashings_div_by_zero ⟨1, 2, 1, 1⟩
    ⟨some 0, some 0, some 30, [⟨1, 10, true, 1⟩], [100], []⟩ 0 30
    rfl rfl rfl ⟨⟨1, 10, true, 1⟩, by decide, by decide⟩

/-! ## C5: frame of the slashing pass -/

/-- The validator at index `i` of `stOrig` is absent or fails the penalty
guard. -/
def notSlashableAt (cs : ChainSpec) (slot : Nat) (stOrig : BeaconState) (i : Nat) : Prop :=
  ∀ hi : i < stOrig.validators.length,
    slashable cs slot (stOrig.validators.get ⟨i, hi⟩) = false

/-- `stCur` agrees with `stOrig` on the validator records, the slashings
vector, the slot, both totals, the number of balances, and every balance
whose validator does not pass the penalty guard. -/
def frameOutsideSlashed (cs : ChainSpec) (slot : Nat) (stOrig stCur : BeaconState) : Prop :=
  stCur.validators = stOrig.validators ∧
  stCur.slashings = stOrig.slashings ∧
  stCur.slot = stOrig.slot ∧
  stCur.totalActiveBalance = stOrig.totalActiveBalance ∧
  stCur.totalSlashing = stOrig.totalSlashing ∧
  stCur.balances.length = stOrig.balances.length ∧
  ∀ i, notSlashableAt cs slot stOrig i → stCur.balances[i]? = stOrig.balances[i]?

theorem frameOutsideSlashed_refl (cs : ChainSpec) (slot : Nat) (st : BeaconState) :
    frameOutsideSlashed cs slot st st :=
  ⟨rfl, rfl, rfl, rfl, rfl, rfl, fun _ _ => rfl⟩

/-- The validator loop preserves the frame: on a pubkey-consistent state
it never touches anything but the balances of guard-passing validators. -/
theorem slashValidators_frame_loop (cs : ChainSpec) (slot a t : Nat)
    (stOrig : BeaconState)
    (hwf : ∀ i (hi : i < stOrig.validators.length),
      ValidatorIndexByPubkey stOrig ((stOrig.validators.get ⟨i, hi⟩).pubkey) = .ok i)
    (vs : List Validator) :
    ∀ st, (∀ v ∈ vs, v ∈ stOrig.validators) →
      frameOutsideSlashed cs slot stOrig st →
      frameOutsideSlashed cs slot stOrig ((slashValidators cs slot a t vs st).state) := by
  induction vs with
  | nil =>
    intro st _ hfr
    exact hfr
  | cons v vs ih =>
    intro st hmem hfr
    have hstep : slashValidators cs slot a t (v :: vs) st
        = if slashable cs slot v then
            match processSlash cs st v a t with
            | .ok stNew => slashValidators cs slot a t vs stNew
            | r => r
          else slashValidators cs slot a t vs st := rfl
    by_cases hsl : slashable cs slot v
    · rw [hstep, if_pos hsl]
      rcases processSlash_cases cs st v a t with ⟨e, hps⟩ | hps | ⟨idx, b, hpk, hlt, hps⟩
      · rw [hps]
        exact hfr
      · rw [hps]
        exact hfr
      · rw [hps]
        apply ih (st.setBalance idx b) (fun v2 hv2 => hmem v2 (List.mem_cons_of_mem v hv2))
        obtain ⟨hval, hsla, hslo, htab, htsl, hlen, hbal⟩ := hfr
        have hv : v ∈ stOrig.validators := hmem v (List.mem_cons_self v vs)
        obtain ⟨⟨j, hj⟩, hget⟩ := List.get_of_mem hv
        have hpk2 : ValidatorIndexByPubkey stOrig v.pubkey = .ok idx := by
          rw [← ValidatorIndexByPubkey_congr hval v.pubkey]
          exact hpk
        have hj2 : ValidatorIndexByPubkey stOrig v.pubkey = .ok j := by
          rw [← hget]
          exact hwf j hj
        have hidxj : idx = j := by
          rw [hpk2] at hj2
          exact Except.ok.inj hj2
        subst hidxj
        refine ⟨hval, hsla, hslo, htab, htsl, ?_, ?_⟩
        · simpa [BeaconState.setBalance] using hlen
        · intro i hns
          have hij : i ≠ idx := by
            rintro rfl
            have hfalse := hns hj
            rw [hget] at hfalse
            rw [hsl] at hfalse
            exact Bool.noConfusion hfalse
          calc (st.setBalance idx b).balances[i]? = (st.balances.set idx b)[i]? := rfl
            _ = st.balances[i]? := List.getElem?_set_ne (Ne.symm hij)
            _ = stOrig.balances[i]? := hbal i hns
    · rw [hstep, if_neg hsl]
      exact ih st (fun v2 hv2 => hmem v2 (List.mem_cons_of_mem v hv2)) hfr

/-- C5: on a state whose pubkey lookup is consistent with validator
positions, the slashing pass leaves the validator records, the slashings
vector, the slot, both totals and the number of balances unchanged, and
changes no balance of a validator failing the penalty guard
(`slashed && withdrawableEpoch == (E + EpochsPerSlashingsVector) / 2`):
its only mutation is the balance decrease of penalized validators. -/
theorem processSlashings_frame (cs : ChainSpec) (st : BeaconState) (slot : Nat)
    (hs : st.slot = some slot)
    (hwf : ∀ i (hi : i < st.validators.length),
      ValidatorIndexByPubkey st ((st.validators.get ⟨i, hi⟩).pubkey) = .ok i) :
    frameOutsideSlashed cs slot st ((processSlashings cs st).state) := by
  cases htb : st.totalActiveBalance with
  | none =>
    have hred : processSlashings cs st = .err .totalActiveBalanceUnavailable st := by
      simp [processSlashings, GetTotalActiveBalances, htb]
    rw [hred]
    exact frameOutsideSlashed_refl cs slot st
  | some tb =>
    cases hts : st.totalSlashing with
    | none =>
      have hred : processSlashings cs st = .err .totalSlashingUnavailable st := by
        simp [processSlashings, GetTotalActiveBalances, GetTotalSlashing, htb, hts]
      rw [hred]
      exact frameOutsideSlashed_refl cs slot st
    | some ts =>
      rw [processSlashings_reduce cs st slot tb ts hs htb hts]
      exact slashValidators_frame_loop cs slot (adjustedTotalSlashingBalance cs ts tb) tb
        st hwf st.validators st (fun v hv => hv) (frameOutsideSlashed_refl cs slot st)

/-- C5 witness: of two validators only the first is slashed in the window;
after the pass the validator records and slashings vector are unchanged
and the second validator's balance is untouched. -/
theorem processSlashings_frame_witness :
    ((processSlashings ⟨1, 2, 1, 1⟩
        ⟨some 0, some 50, some 30,
          [⟨1, 10, true, 1⟩, ⟨2, 10, false, 1⟩], [100, 200], [0, 30]⟩).state).validators
      = [⟨1, 10, true, 1⟩, ⟨2, 10, false, 1⟩]
    ∧ ((processSlashings ⟨1, 2, 1, 1⟩
        ⟨some 0, some 50, some 30,
          [⟨1, 10, true, 1⟩, ⟨2, 10, false, 1⟩], [100, 200], [0, 30]⟩).state).slashings
      = [0, 30]
    ∧ ((processSlashings ⟨1, 2, 1, 1⟩
        ⟨some 0, some 50, some 30,
          [⟨1, 10, true, 1⟩, ⟨2, 10, false, 1⟩], [100, 200], [0, 30]⟩).state).balances[1]?
      = some 200 := by
  have h := processSlashings_frame ⟨1, 2, 1, 1⟩
    ⟨some 0, some 50, some 30,
      [⟨1, 10, true, 1⟩, ⟨2, 10, false, 1⟩], [100, 200], [0, 30]⟩ 0 rfl (by decide)
  exact ⟨h.1, h.2.1, h.2.2.2.2.2.2 1 (fun hi => of_decide_eq_true rfl)⟩

/-! ## C6, C7, C8: the blob verification pipeline -/

/-- Every failing sidecar contributes exactly one entry to the joined
inclusion error. -/
theorem length_filterMap_eq_countP {α β : Type} (f : α → Option β) (l : List α) :
    (l.filterMap f).length = l.countP (fun x => (f x).isSome) := by
  induction l with
  | nil => rfl
  | cons a l ih =>
    cases h : f a <;>
      simp [List.filterMap_cons, h, List.countP_cons, ih]

/-- C6: whenever the batch has a nil sidecar, or any inclusion proof
fails, or the aggregate proof fails, `ProcessBlobs` returns a verification
error — never a persistence outcome, so the availability store's persist
operation is not invoked and nothing is stored; a nil sidecar is itself
recorded as the dedicated nil-sidecar failure, distinct from a
cryptographic mismatch. -/
theorem ProcessBlobs_failure_no_persist
    (vI : BlobSidecar → Bool) (vA : List (Option BlobSidecar) → Bool)
    (inclusionFirst : Bool) (slot : Nat) (avs : AvailabilityStore)
    (scs : List (Option BlobSidecar)) :
    ((none ∈ scs ∨ inclusionErrors vI scs ≠ [] ∨ vA scs = false) →
      ∃ e, ProcessBlobs vI vA inclusionFirst slot avs scs = .error e
        ∧ e ≠ BlobErr.persistFail)
    ∧ (none ∈ scs → SidecarErr.nilSidecar ∈ inclusionErrors vI scs) := by
  have hnil : none ∈ scs → SidecarErr.nilSidecar ∈ inclusionErrors vI scs := by
    intro h
    exact List.mem_filterMap.mpr ⟨none, h, rfl⟩
  refine ⟨?_, hnil⟩
  intro h
  have hne : inclusionErrors vI scs ≠ [] ∨ vA scs = false := by
    rcases h with h | h | h
    · exact Or.inl (List.ne_nil_of_mem (hnil h))
    · exact Or.inl h
    · exact Or.inr h
  cases hI : inclusionErrors vI scs with
  | nil =>
    have hA : vA scs = false := by
      rcases hne with h1 | h1
      · exact absurd hI h1
      · exact h1
    exact ⟨.aggregateProofFail, by simp [ProcessBlobs, hI, hA], by simp⟩
  | cons a as =>
    by_cases hA : vA scs
    · exact ⟨.inclusion (a :: as), by simp [ProcessBlobs, hI, hA], by simp⟩
    · refine ⟨if inclusionFirst then .inclusion (a :: as) else .aggregateProofFail, ?_, ?_⟩
      · simp [ProcessBlobs, hI, Bool.eq_false_iff.mpr hA]
      · cases inclusionFirst <;> simp

/-- C6 witness: a batch with a nil sidecar in position 1 yields a
verification error (containing the nil-sidecar failure), not a
persistence outcome. -/
theorem ProcessBlobs_failure_no_persist_witness :
    (∃ e, ProcessBlobs (fun _ => true) (fun _ => true) true 0 ⟨[], false⟩
        [some ⟨1⟩, none] = .error e ∧ e ≠ BlobErr.persistFail)
    ∧ SidecarErr.nilSidecar ∈ inclusionErrors (fun _ => true) [some ⟨1⟩, none] :=
  ⟨(ProcessBlobs_failure_no_persist (fun _ => true) (fun _ => true) true 0
      ⟨[], false⟩ [some ⟨1⟩, none]).1 (Or.inl (by decide)),
   (ProcessBlobs_failure_no_persist (fun _ => true) (fun _ => true) true 0
      ⟨[], false⟩ [some ⟨1⟩, none]).2 (by decide)⟩

/-- C7: when every sidecar is non-nil and individually verified and the
aggregate proof passes, `ProcessBlobs` is exactly the persist call: with a
working store it stores the full batch under the given slot and succeeds,
and if the store write fails that persistence error is surfaced to the
caller. -/
theorem ProcessBlobs_success_persists
    (vI : BlobSidecar → Bool) (vA : List (Option BlobSidecar) → Bool)
    (inclusionFirst : Bool) (slot : Nat) (avs : AvailabilityStore)
    (scs : List (Option BlobSidecar))
    (hincl : ∀ o ∈ scs, sidecarVerdict vI o = none)
    (hagg : vA scs = true) :
    ProcessBlobs vI vA inclusionFirst slot avs scs = Persist slot avs scs
    ∧ (avs.failPersist = false →
        ProcessBlobs vI vA inclusionFirst slot avs scs
          = .ok { avs with entries := (slot, scs) :: avs.entries })
    ∧ (avs.failPersist = true →
        ProcessBlobs vI vA inclusionFirst slot avs scs = .error BlobErr.persistFail) := by
  have hI : inclusionErrors vI scs = [] := List.filterMap_eq_nil_iff.mpr hincl
  refine ⟨by simp [ProcessBlobs, hI, hagg], fun hf => ?_, fun hf => ?_⟩
  · simp [ProcessBlobs, hI, hagg, Persist, hf]
  · simp [ProcessBlobs, hI, hagg, Persist, hf]

/-- C7 witness: an all-valid one-sidecar batch is persisted under slot 5
as-is; with a failing store the persistence error surfaces. -/
theorem ProcessBlobs_success_persists_witness :
    ProcessBlobs (fun sc => sc.blob == 1) (fun _ => true) true 5 ⟨[], false⟩ [some ⟨1⟩]
      = .ok ⟨[(5, [some ⟨1⟩])], false⟩
    ∧ ProcessBlobs (fun sc => sc.blob == 1) (fun _ => true) true 5 ⟨[], true⟩ [some ⟨1⟩]
      = .error BlobErr.persistFail :=
  ⟨(ProcessBlobs_success_persists (fun sc => sc.blob == 1) (fun _ => true) true 5
      ⟨[], false⟩ [some ⟨1⟩] (by decide) rfl).2.1 rfl,
   (ProcessBlobs_success_persists (fun sc => sc.blob == 1) (fun _ => true) true 5
      ⟨[], true⟩ [some ⟨1⟩] (by decide) rfl).2.2 rfl⟩

/-- C8 counterexample: with a batch whose only sidecar is nil and a
failing aggregate proof, both verification tasks fail, yet the returned
error is exactly one task's error — the inclusion error when the
inclusion goroutine's failure is recorded first, the bare aggregate error
otherwise — never a value reflecting both failures. -/
theorem ProcessBlobs_both_fail_single_error :
    ProcessBlobs (fun _ => true) (fun _ => false) true 0 ⟨[], false⟩ [none]
      = .error (.inclusion [.nilSidecar])
    ∧ ProcessBlobs (fun _ => true) (fun _ => false) false 0 ⟨[], false⟩ [none]
      = .error .aggregateProofFail
    ∧ BlobErr.aggregateProofFail ≠ BlobErr.inclusion [SidecarErr.nilSidecar] :=
  ⟨rfl, rfl, by decide⟩

/-- C8 amended: per-sidecar inclusion failures are indeed collected across
the whole batch into one joined error with an entry for every failing
sidecar (no short-circuit), but when the inclusion task and the aggregate
task both fail, `errgroup.Wait` surfaces only the first-recorded single
task error — the joined inclusion error or the aggregate error, depending
on scheduling — not a combination of both. -/
theorem ProcessBlobs_error_collection
    (vI : BlobSidecar → Bool) (vA : List (Option BlobSidecar) → Bool)
    (slot : Nat) (avs : AvailabilityStore) (scs : List (Option BlobSidecar)) :
    (inclusionErrors vI scs).length = scs.countP (fun o => (sidecarVerdict vI o).isSome)
    ∧ (∀ e, e ∈ inclusionErrors vI scs ↔ ∃ o ∈ scs, sidecarVerdict vI o = some e)
    ∧ (inclusionErrors vI scs ≠ [] → vA scs = false →
        ProcessBlobs vI vA true slot avs scs
            = .error (.inclusion (inclusionErrors vI scs))
          ∧ ProcessBlobs vI vA false slot avs scs = .error .aggregateProofFail) := by
  refine ⟨length_filterMap_eq_countP (sidecarVerdict vI) scs,
    fun e => List.mem_filterMap, fun hne hA => ?_⟩
  cases hI : inclusionErrors vI scs with
  | nil => exact absurd hI hne
  | cons a as => exact ⟨by simp [ProcessBlobs, hI, hA], by simp [ProcessBlobs, hI, hA]⟩

/-- C8 amended witness: a batch with one invalid and one nil sidecar and a
failing aggregate proof: the joined inclusion error lists both failing
sidecars, and each scheduling returns a single task's error. -/
theorem ProcessBlobs_error_collection_witness :
    (inclusionErrors (fun sc => sc.blob == 1) [some ⟨2⟩, none, some ⟨1⟩]).length
      = List.countP (fun o => (sidecarVerdict (fun sc => sc.blob == 1) o).isSome)
          [some ⟨2⟩, none, some ⟨1⟩]
    ∧ (ProcessBlobs (fun sc => sc.blob == 1) (fun _ => false) true 0 ⟨[], false⟩
          [some ⟨2⟩, none, some ⟨1⟩]
        = .error (.inclusion (inclusionErrors (fun sc => sc.blob == 1)
            [some ⟨2⟩, none, some ⟨1⟩]))
       ∧ ProcessBlobs (fun sc => sc.blob == 1) (fun _ => false) false 0 ⟨[], false⟩
          [some ⟨2⟩, none, some ⟨1⟩]
        = .error .aggregateProofFail) :=
  ⟨(ProcessBlobs_error_collection (fun sc => sc.blob == 1) (fun _ => false) 0
      ⟨[], false⟩ [some ⟨2⟩, none, some ⟨1⟩]).1,
   (ProcessBlobs_error_collection (fun sc => sc.blob == 1) (fun _ => false) 0
      ⟨[], false⟩ [some ⟨2⟩, none, some ⟨1⟩]).2.2 (by decide) rfl⟩

end BeaconKit
